import Mathlib

/-!
Verification development for the az-devops-pr-review-extractor repository.

The repository consists of two Python scripts:
  * get_user_prs.py   — the "PR Lister": lists a user's pull requests and
    writes their identifiers to a flat text file, one per line as `<id>,`.
  * get_pr_comments.py — the "Comment Aggregator": runs the lister, reads the
    identifier file, fetches the comment threads of each pull request from the
    platform, extracts qualifying comments and appends them to a JSON output
    file.

The definitions below are a shallow embedding of those scripts.  External
subprocess calls (the `az` CLI) are modelled by explicit outcome values; the
Python standard library string operations used by the scripts are modelled
character-by-character.
-/

namespace AzPrReview

/-- Whitespace characters recognised by Python str.strip with no argument
(ASCII range: space, tab, newline, carriage return, vertical tab, form feed). -/
def isPyWs (c : Char) : Bool :=
  c = ' ' || c = '\t' || c = '\n' || c = '\r' || c = Char.ofNat 11 || c = Char.ofNat 12

/-- Python str.strip on a character list: drop leading and trailing whitespace. -/
def pyStripChars (l : List Char) : List Char :=
  ((l.dropWhile isPyWs).reverse.dropWhile isPyWs).reverse

/-- Python str.rstrip "," on a character list: drop all trailing comma characters. -/
def pyRstripComma (l : List Char) : List Char :=
  (l.reverse.dropWhile (fun c => c = ',')).reverse

/-- Python str.split "\n" on a character list: split at every newline.  As in
Python, the empty input yields a single empty field and a trailing newline
yields a trailing empty field. -/
def splitLines : List Char → List (List Char)
  | [] => [[]]
  | c :: cs =>
    if c = '\n' then [] :: splitLines cs
    else
      match splitLines cs with
      | [] => [[c]]
      | l :: ls => (c :: l) :: ls

/-- Digits of a character list folded to a natural number (decimal). -/
def digitsToNat (l : List Char) : Nat :=
  l.foldl (fun acc c => 10 * acc + (c.toNat - 48)) 0

/-- Parse a non-empty all-digit character list as a natural number. -/
def decDigits? (l : List Char) : Option Nat :=
  if l ≠ [] ∧ ∀ c ∈ l, c.isDigit then some (digitsToNat l) else none

/-- Model of Python int(str) on the strings this program feeds it: surrounding
whitespace is stripped, an optional sign is accepted, and the remainder must be
a non-empty run of decimal digits, otherwise a ValueError is raised (None here). -/
def pyInt (s : String) : Option Int :=
  match pyStripChars s.data with
  | '+' :: rest => (decDigits? rest).map (fun n => (n : Int))
  | '-' :: rest => (decDigits? rest).map (fun n => -(n : Int))
  | l => (decDigits? l).map (fun n => (n : Int))

/-! ## get_user_prs.py — the PR Lister -/

/-- A pull request object as returned by the platform's PR-list call.  Only the
two fields the script reads are modelled; `none` stands for an absent field
(Python dict.get default). An absent or null pullRequestId are both `none`. -/
structure PullRequest where
  status : Option String
  pullRequestId : Option Int
deriving Repr, DecidableEq

/-- Embedding of get_user_completed_prs (get_user_prs.py, lines 51-61): keep the
pull requests whose status is "active" or "completed" and whose pullRequestId is
truthy (present and non-zero), and return their identifiers as decimal strings. -/
def get_user_completed_prs (prs_data : List PullRequest) : List String :=
  prs_data.filterMap (fun pr =>
    let status := pr.status.getD ""
    if status = "active" ∨ status = "completed" then
      match pr.pullRequestId with
      | some n => if n ≠ 0 then some (toString n) else none
      | none => none
    else none)

/-- Character-level form of the identifier file the lister writes: each
identifier followed by a comma and a newline (get_user_prs.py, lines 102-104). -/
def writeIdsFileChars (ids : List (List Char)) : List Char :=
  (ids.map (fun s => s ++ [',', '\n'])).flatten

/-- The identifier file written by the PR Lister's main: one identifier per
line in the literal form `<id>,` followed by a newline. -/
def writeIdsFile (ids : List String) : String :=
  String.mk (writeIdsFileChars (ids.map String.data))

/-! ## get_pr_comments.py — data model -/

/-- Outcome of one external `az` CLI invocation followed by a JSON parse of its
stdout: the subprocess exited non-zero (CalledProcessError), its output was not
parseable JSON (JSONDecodeError), or it parsed to a value of the given shape. -/
inductive CliOutcome (α : Type) where
  | callFailed
  | badJson
  | parsed (val : α)
deriving Repr, DecidableEq

/-- The repository object returned by `az repos show`; only the "id" field is
read, `none` meaning the field is absent (a KeyError on access). -/
structure RepoData where
  id : Option String
deriving Repr, DecidableEq

/-- The author object of a thread comment; `none` displayName means that key is
absent. -/
structure Author where
  displayName : Option String
deriving Repr, DecidableEq

/-- A single comment inside a pull-request thread, with `none` for each key the
response may omit (Python dict.get defaults). -/
structure ThreadComment where
  author : Option Author
  content : Option String
  publishedDate : Option String
  commentType : Option String
deriving Repr, DecidableEq

/-- A comment thread of a pull request; `none` means the thread object has no
"comments" key. -/
structure ThreadData where
  comments : Option (List ThreadComment)
deriving Repr, DecidableEq

/-- The body of the thread-list REST response; `none` value means the "value"
key is absent (dict.get default []). -/
structure ThreadsResponse where
  value : Option (List ThreadData)
deriving Repr, DecidableEq

/-- One extracted output record: reviewer display name, comment text and
publish date. -/
structure CommentRecord where
  reviewer_name : String
  comment : String
  date : String
deriving Repr, DecidableEq

/-! ## get_pr_comments.py — comment extraction and fetching -/

/-- The record get_pr_comments builds for one thread comment (lines 103-116):
author display name defaulting to "Unknown", content defaulting to "", publish
date defaulting to ""; the record is kept only when the content is non-empty
and the comment type is not "system". -/
def commentRecordOf (c : ThreadComment) : Option CommentRecord :=
  let author : String :=
    match c.author with
    | some a => a.displayName.getD "Unknown"
    | none => "Unknown"
  let content := c.content.getD ""
  let published_date := c.publishedDate.getD ""
  let comment_type := c.commentType.getD ""
  if content ≠ "" ∧ comment_type ≠ "system" then
    some ⟨author, content, published_date⟩
  else none

/-- Embedding of the extraction loop of get_pr_comments (lines 100-117): walk
the threads in order, skip a thread without a "comments" key, and collect the
qualifying records of each thread's comments in order. -/
def extractComments (threads_data : List ThreadData) : List CommentRecord :=
  threads_data.flatMap (fun thread =>
    match thread.comments with
    | some cs => cs.filterMap commentRecordOf
    | none => [])

/-- Embedding of get_repository_id (get_pr_comments.py, lines 23-58).  Every
failure path prints a diagnostic to stderr and calls sys.exit(1); this is
modelled as `Except` with the diagnostic lines as the error payload.  A missing
"id" field raises KeyError, caught by the same handler as a JSON parse error. -/
def get_repository_id : CliOutcome RepoData → Except (List String) String
  | .callFailed => .error ["Error getting repository ID:", "stderr:"]
  | .badJson => .error ["Error parsing repository data:"]
  | .parsed r =>
    match r.id with
    | some i => .ok i
    | none => .error ["Error parsing repository data:"]

/-- The external world one iteration of the driver loop sees: the outcome of
the `az repos show` call made by get_repository_id, and the outcome of the
`az rest` thread-list call. -/
structure PrEnv where
  repoShow : CliOutcome RepoData
  threadsCall : CliOutcome ThreadsResponse

/-- Embedding of get_pr_comments (get_pr_comments.py, lines 61-129): resolve
the repository id (its sys.exit propagates), issue the thread-list call, and
extract the comments.  Every failure path calls sys.exit(1), modelled as an
`Except.error` carrying the stderr diagnostic; note that a SystemExit raised
here is NOT an Exception and therefore escapes the caller's
`except Exception` handler. -/
def get_pr_comments (env : PrEnv) : Except (List String) (List CommentRecord) :=
  match get_repository_id env.repoShow with
  | .error d => .error d
  | .ok _ =>
    match env.threadsCall with
    | .callFailed => .error ["Error executing Azure CLI command:", "stderr:"]
    | .badJson => .error ["Error parsing JSON response:"]
    | .parsed resp => .ok (extractComments (resp.value.getD []))

/-! ## get_pr_comments.py — the Aggregation Driver (main) -/

/-- Embedding of the identifier-file parse in main (get_pr_comments.py, line
181): strip the whole text, split it at newlines, keep the non-blank lines,
and take each line stripped of whitespace and of its trailing comma. -/
def parseIdsFile (text : String) : List String :=
  (splitLines (pyStripChars text.data)).filterMap (fun line =>
    if pyStripChars line = [] then none
    else some (String.mk (pyRstripComma (pyStripChars line))))

/-- State of the output file at the start of a run: absent, present but not
valid JSON, or a valid JSON array of records. -/
inductive OutFile where
  | missing
  | invalid
  | records (recs : List CommentRecord)
deriving Repr, DecidableEq

/-- Embedding of step 3 of main (lines 188-196): load the existing output file;
a missing file (FileNotFoundError) or invalid JSON (JSONDecodeError) both fall
through to the empty list. -/
def loadExisting : OutFile → List CommentRecord
  | .records recs => recs
  | .missing => []
  | .invalid => []

/-- Warning path of one loop iteration of main: int(pr_id) raised ValueError,
caught by the `except Exception` handler, which logs a warning naming the
identifier and continues with the rest of the loop. -/
def warnStep (pr_id : String) :
    Except (List String × List String) (List CommentRecord × List String) →
      Except (List String × List String) (List CommentRecord × List String)
  | .ok (cs, ws) => .ok (cs, pr_id :: ws)
  | .error (d, ws) => .error (d, pr_id :: ws)

/-- Successful fetch of `cs` for the current identifier: prepend them to
whatever the rest of the loop produces. -/
def appendStep (cs : List CommentRecord) :
    Except (List String × List String) (List CommentRecord × List String) →
      Except (List String × List String) (List CommentRecord × List String)
  | .ok (cs2, ws) => .ok (cs ++ cs2, ws)
  | .error (d, ws) => .error (d, ws)

/-- Embedding of the per-identifier loop of main (lines 199-207), indexing the
external world by loop position.  int(pr_id) raising ValueError is caught by
the `except Exception` handler (warnStep); a failure inside get_pr_comments is
a sys.exit(1) (SystemExit is not an Exception), so it aborts the whole loop,
carrying the diagnostic and the warnings issued so far. -/
def processLoop : List String → (Nat → PrEnv) →
    Except (List String × List String) (List CommentRecord × List String)
  | [], _ => .ok ([], [])
  | pr_id :: rest, env =>
    match pyInt pr_id with
    | none => warnStep pr_id (processLoop rest (fun i => env (i + 1)))
    | some _ =>
      match get_pr_comments (env 0) with
      | .error d => .error (d, [])
      | .ok cs => appendStep cs (processLoop rest (fun i => env (i + 1)))

/-- Unfolding equation for one iteration of the loop. -/
theorem processLoop_cons (pr_id : String) (rest : List String) (env : Nat → PrEnv) :
    processLoop (pr_id :: rest) env =
      match pyInt pr_id with
      | none => warnStep pr_id (processLoop rest (fun i => env (i + 1)))
      | some _ =>
        match get_pr_comments (env 0) with
        | .error d => .error (d, [])
        | .ok cs => appendStep cs (processLoop rest (fun i => env (i + 1))) := by
  rfl

/-- Observable outcome of a driver run: the process exit code, the state of the
output file when the process ends, the identifiers for which a per-identifier
warning was printed, the fatal diagnostics printed to stderr, and whether the
temporary identifier file was deleted. -/
structure DriverOutcome where
  exitCode : Nat
  finalFile : OutFile
  warnedIds : List String
  errLog : List String
  deletedTemp : Bool
deriving Repr, DecidableEq

/-- Steps 3-7 of main (get_pr_comments.py, lines 188-224) for an already parsed
identifier list: load the existing records, run the per-identifier loop, and on
success overwrite the output file with existing ++ new and best-effort delete
the temporary file; if the loop aborted via sys.exit the output file is left
exactly as it was. -/
def runOnIds (pr_ids : List String) (outFile : OutFile) (env : Nat → PrEnv)
    (deleteOk : Bool) : DriverOutcome :=
  let existing_comments := loadExisting outFile
  match processLoop pr_ids env with
  | .error (d, ws) => ⟨1, outFile, ws, d, false⟩
  | .ok (all_new, ws) =>
    ⟨0, .records (existing_comments ++ all_new), ws, [], deleteOk⟩

/-- Embedding of main of get_pr_comments.py (lines 132-224): run the PR Lister
subprocess (fatal on failure), read the identifier file (fatal if missing),
parse it, and run the accumulation on the parsed identifiers. -/
def mainRun (listerOk : Bool) (idsFile : Option String) (outFile : OutFile)
    (env : Nat → PrEnv) (deleteOk : Bool) : DriverOutcome :=
  if listerOk then
    match idsFile with
    | none => ⟨1, outFile, [], ["Error: user_prs.json not found"], false⟩
    | some text => runOnIds (parseIdsFile text) outFile env deleteOk
  else
    ⟨1, outFile, [], ["Error running get_user_prs.py:", "stderr:"], false⟩

/-! ## Spec-side definitions

The following definitions are written from the specification's words, to be
compared with the definitions above that were translated from the source. -/

/-- Spec wording: a comment is included exactly when its content is non-empty
and its commentType is not "system". -/
def specIncluded (c : ThreadComment) : Bool :=
  decide (c.content.getD "" ≠ "") && decide (c.commentType.getD "" ≠ "system")

/-- Spec wording: reviewer_name defaults to "Unknown" when the author display
name is absent. -/
def specReviewerName (c : ThreadComment) : String :=
  match c.author with
  | none => "Unknown"
  | some a =>
    match a.displayName with
    | none => "Unknown"
    | some n => n

/-- Spec wording: the record of a comment — reviewer name, content, publish
date. -/
def specRecordOf (c : ThreadComment) : CommentRecord :=
  ⟨specReviewerName c, c.content.getD "", c.publishedDate.getD ""⟩

/-- Spec wording of the Comment Fetcher's extraction: for each thread in order,
take its comments (zero when the "comments" key is missing), keep exactly the
included ones in order, and record them. -/
def specExtract (threads_data : List ThreadData) : List CommentRecord :=
  (threads_data.map (fun t =>
    ((t.comments.getD []).filter specIncluded).map specRecordOf)).flatten

/-! ## Helper lemmas -/

/-- Characterisation of the PR Lister's output as a set: a string is written
iff some listed pull request has an acceptable status, a truthy (present,
non-zero) identifier, and that identifier's decimal string is the string. -/
theorem mem_user_prs (prs : List PullRequest) (s : String) :
    s ∈ get_user_completed_prs prs ↔
      ∃ pr ∈ prs,
        (pr.status.getD "" = "active" ∨ pr.status.getD "" = "completed") ∧
        ∃ n : Int, pr.pullRequestId = some n ∧ n ≠ 0 ∧ s = toString n := by
  unfold get_user_completed_prs
  rw [List.mem_filterMap]
  constructor
  · rintro ⟨pr, hmem, hf⟩
    refine ⟨pr, hmem, ?_⟩
    by_cases hst : pr.status.getD "" = "active" ∨ pr.status.getD "" = "completed"
    · rw [if_pos hst] at hf
      cases hid : pr.pullRequestId with
      | none => rw [hid] at hf; simp at hf
      | some n =>
        rw [hid] at hf
        by_cases hn : n = 0
        · subst hn; simp at hf
        · simp only [hn, ne_eq, not_false_eq_true, if_true, Option.some_inj] at hf
          exact ⟨hst, n, rfl, hn, hf.symm⟩
    · rw [if_neg hst] at hf; simp at hf
  · rintro ⟨pr, hmem, hst, n, hid, hn, hs⟩
    refine ⟨pr, hmem, ?_⟩
    rw [if_pos hst, hid]
    simp [hn, hs]

/-- The lister's filtering function yields nothing on a pull request whose
identifier is absent or zero, whatever its status. -/
theorem user_prs_drop_untruthy (prs₁ prs₂ : List PullRequest) (pr : PullRequest)
    (h : pr.pullRequestId = none ∨ pr.pullRequestId = some 0) :
    get_user_completed_prs (prs₁ ++ pr :: prs₂) =
      get_user_completed_prs (prs₁ ++ prs₂) := by
  unfold get_user_completed_prs
  rw [List.filterMap_append, List.filterMap_append, List.filterMap_cons]
  rcases h with h | h <;> rw [h] <;> simp

/-- Per-thread extraction agrees with the spec-side filter-then-map form. -/
theorem filterMap_commentRecordOf (cs : List ThreadComment) :
    cs.filterMap commentRecordOf = (cs.filter specIncluded).map specRecordOf := by
  induction cs with
  | nil => rfl
  | cons c rest ih =>
    rw [List.filterMap_cons, List.filter_cons]
    by_cases hc : c.content.getD "" = ""
    · have h1 : commentRecordOf c = none := by
        unfold commentRecordOf; rw [if_neg]; intro hand; exact hand.1 hc
      have h2 : specIncluded c = false := by
        unfold specIncluded; simp [hc]
      rw [h1, h2, ih]; simp
    · by_cases ht : c.commentType.getD "" = "system"
      · have h1 : commentRecordOf c = none := by
          unfold commentRecordOf; rw [if_neg]; intro hand; exact hand.2 ht
        have h2 : specIncluded c = false := by
          unfold specIncluded; simp [ht]
        rw [h1, h2, ih]; simp
      · have h1 : commentRecordOf c = some (specRecordOf c) := by
          unfold commentRecordOf specRecordOf specReviewerName
          rw [if_pos ⟨hc, ht⟩]
          cases c.author with
          | none => rfl
          | some a => obtain ⟨d⟩ := a; cases d <;> rfl
        have h2 : specIncluded c = true := by
          unfold specIncluded; simp [hc, ht]
        rw [h1, h2, ih]; simp

/-- The repository-resolution failure modes named by the spec: the external
call exits non-zero, its output is not parseable JSON, or the parsed response
lacks an "id" field. -/
def repoFail (o : CliOutcome RepoData) : Prop :=
  o = .callFailed ∨ o = .badJson ∨ o = .parsed ⟨none⟩

/-- Forget the warning component of a loop result, keeping only what decides
the exit code and the written records. -/
def stripWarn :
    Except (List String × List String) (List CommentRecord × List String) →
      Except (List String) (List CommentRecord)
  | .error (d, _) => .error d
  | .ok (cs, _) => .ok cs

/-- The per-position environment seen by a run in which the identifier at
position k has been removed from the list. -/
def shiftEnv (env : Nat → PrEnv) (k : Nat) : Nat → PrEnv :=
  fun i => if i < k then env i else env (i + 1)

theorem shiftEnv_zero (env : Nat → PrEnv) :
    shiftEnv env 0 = fun i => env (i + 1) := by
  funext i; simp [shiftEnv]

theorem shiftEnv_succ (env : Nat → PrEnv) (k : Nat) :
    (fun i => shiftEnv env (k + 1) (i + 1)) = shiftEnv (fun i => env (i + 1)) k := by
  funext i
  simp only [shiftEnv]
  by_cases h : i < k
  · rw [if_pos (by omega), if_pos h]
  · rw [if_neg (by omega), if_neg h]

/-- When repository resolution fails, get_pr_comments exits with a non-empty
diagnostic. -/
theorem get_pr_comments_error_of_repoFail (env : PrEnv) (h : repoFail env.repoShow) :
    ∃ d, get_pr_comments env = .error d ∧ d ≠ [] := by
  unfold get_pr_comments
  rcases h with h | h | h <;> rw [h] <;> exact ⟨_, rfl, by simp⟩

/-- stripWarn ignores the warning added by warnStep. -/
theorem stripWarn_warnStep (pr_id : String)
    (r : Except (List String × List String) (List CommentRecord × List String)) :
    stripWarn (warnStep pr_id r) = stripWarn r := by
  cases r with
  | ok p => obtain ⟨cs, ws⟩ := p; rfl
  | error p => obtain ⟨d, ws⟩ := p; rfl

/-- stripWarn is congruent through appendStep. -/
theorem stripWarn_appendStep (cs : List CommentRecord)
    (r₁ r₂ : Except (List String × List String) (List CommentRecord × List String))
    (h : stripWarn r₁ = stripWarn r₂) :
    stripWarn (appendStep cs r₁) = stripWarn (appendStep cs r₂) := by
  cases r₁ with
  | ok p =>
    obtain ⟨cs1, ws1⟩ := p
    cases r₂ with
    | ok p' =>
      obtain ⟨cs2, ws2⟩ := p'
      simp only [stripWarn, Except.ok.injEq] at h
      simp [appendStep, stripWarn, h]
    | error p' => obtain ⟨d2, ws2⟩ := p'; simp [stripWarn] at h
  | error p =>
    obtain ⟨d1, ws1⟩ := p
    cases r₂ with
    | ok p' => obtain ⟨cs2, ws2⟩ := p'; simp [stripWarn] at h
    | error p' =>
      obtain ⟨d2, ws2⟩ := p'
      simp only [stripWarn, Except.error.injEq] at h
      simp [appendStep, stripWarn, h]

/-- If the identifiers before position k all fail integer parsing and the
repository resolution for the identifier at position k fails, the loop aborts
there, with only the earlier identifiers warned about. -/
theorem processLoop_error_of_repoFail (bads : List String) (id : String)
    (rest : List String) (env : Nat → PrEnv) (n : Int)
    (hb : ∀ b ∈ bads, pyInt b = none) (hid : pyInt id = some n)
    (hrf : repoFail (env bads.length).repoShow) :
    ∃ d, processLoop (bads ++ id :: rest) env = .error (d, bads) ∧ d ≠ [] := by
  induction bads generalizing env with
  | nil =>
    obtain ⟨d, hd, hne⟩ := get_pr_comments_error_of_repoFail (env 0) hrf
    refine ⟨d, ?_, hne⟩
    rw [List.nil_append, processLoop_cons, hid, hd]
  | cons b bads' ih =>
    have hbn : pyInt b = none := hb b (List.mem_cons_self b bads')
    have hrf' : repoFail ((fun i => env (i + 1)) bads'.length).repoShow := by
      simpa [Nat.succ_eq_add_one] using hrf
    obtain ⟨d, hd, hne⟩ := ih (fun i => env (i + 1))
      (fun x hx => hb x (List.mem_cons_of_mem b hx)) hrf'
    refine ⟨d, ?_, hne⟩
    rw [List.cons_append, processLoop_cons, hbn, hd]
    rfl

/-- Removing an unparseable identifier from the list (and shifting the
environment accordingly) does not change the loop's fatal-or-success outcome,
its fetched records, or its diagnostic. -/
theorem processLoop_skip_strip (ids₁ : List String) (bad : String)
    (ids₂ : List String) (env : Nat → PrEnv) (h : pyInt bad = none) :
    stripWarn (processLoop (ids₁ ++ bad :: ids₂) env) =
      stripWarn (processLoop (ids₁ ++ ids₂) (shiftEnv env ids₁.length)) := by
  induction ids₁ generalizing env with
  | nil =>
    rw [List.nil_append, List.nil_append, List.length_nil, shiftEnv_zero,
      processLoop_cons, h, stripWarn_warnStep]
  | cons a ids₁' ih =>
    have henv0 : shiftEnv env (ids₁'.length + 1) 0 = env 0 := by
      simp [shiftEnv]
    have ih' := ih (fun i => env (i + 1))
    rw [← shiftEnv_succ env ids₁'.length] at ih'
    rw [List.cons_append, List.cons_append, List.length_cons,
      processLoop_cons, processLoop_cons, henv0]
    cases hA : pyInt a with
    | none => rw [stripWarn_warnStep, stripWarn_warnStep]; exact ih'
    | some m =>
      cases hG : get_pr_comments (env 0) with
      | error d => rfl
      | ok cs => exact stripWarn_appendStep cs _ _ ih'

/-- If the loop over a list containing an unparseable identifier completes,
that identifier is among the warned ones. -/
theorem processLoop_warn_mem (ids₁ : List String) (bad : String)
    (ids₂ : List String) (env : Nat → PrEnv) (cs : List CommentRecord)
    (ws : List String) (h : pyInt bad = none)
    (hok : processLoop (ids₁ ++ bad :: ids₂) env = .ok (cs, ws)) : bad ∈ ws := by
  induction ids₁ generalizing env cs ws with
  | nil =>
    rw [List.nil_append, processLoop_cons, h] at hok
    cases hI : processLoop ids₂ (fun i => env (i + 1)) with
    | ok p =>
      obtain ⟨cs', ws'⟩ := p
      rw [hI] at hok
      simp only [warnStep, Except.ok.injEq, Prod.mk.injEq] at hok
      rw [← hok.2]
      exact List.mem_cons_self bad ws'
    | error p =>
      obtain ⟨d', ws'⟩ := p
      rw [hI] at hok
      simp [warnStep] at hok
  | cons a ids₁' ih =>
    rw [List.cons_append, processLoop_cons] at hok
    cases hA : pyInt a with
    | none =>
      rw [hA] at hok
      cases hI : processLoop (ids₁' ++ bad :: ids₂) (fun i => env (i + 1)) with
      | ok p =>
        obtain ⟨cs', ws'⟩ := p
        rw [hI] at hok
        simp only [warnStep, Except.ok.injEq, Prod.mk.injEq] at hok
        rw [← hok.2]
        exact List.mem_cons_of_mem a (ih _ _ _ hI)
      | error p => obtain ⟨d', ws'⟩ := p; rw [hI] at hok; simp [warnStep] at hok
    | some m =>
      rw [hA] at hok
      cases hG : get_pr_comments (env 0) with
      | error d => rw [hG] at hok; simp at hok
      | ok cs0 =>
        rw [hG] at hok
        cases hI : processLoop (ids₁' ++ bad :: ids₂) (fun i => env (i + 1)) with
        | ok p =>
          obtain ⟨cs', ws'⟩ := p
          rw [hI] at hok
          simp only [appendStep, Except.ok.injEq, Prod.mk.injEq] at hok
          rw [← hok.2]
          exact ih _ _ _ hI
        | error p => obtain ⟨d', ws'⟩ := p; rw [hI] at hok; simp [appendStep] at hok

/-! ## Claim theorems -/

/-- C1 (code bug demonstration).  Three pull requests 101, 102, 103 are listed;
the thread-list call for PR 102 exits non-zero.  The claim (and the intent of
main's `except Exception` warning-and-continue handler) says the driver logs a
warning for PR 102, still writes the output file with the comments of PRs 101
and 103, and exits successfully.  The code instead calls sys.exit(1) inside
get_pr_comments; SystemExit is not an Exception, so the handler never fires:
the run aborts with exit code 1, no warning is logged for PR 102, and the
output file is never written. -/
theorem c1_fetch_failure_aborts_run :
    mainRun true (some "101,\n102,\n103,\n") OutFile.missing
        (fun i => if i = 1 then ⟨.parsed ⟨some "RID"⟩, .callFailed⟩
          else ⟨.parsed ⟨some "RID"⟩,
            .parsed ⟨some [⟨some [⟨some ⟨some "Alice"⟩, some "LGTM",
              some "2024-01-01", some "text"⟩]⟩]⟩⟩) true =
      ⟨1, OutFile.missing, [], ["Error executing Azure CLI command:", "stderr:"],
        false⟩ := by
  rfl

/-- C2 (counterexample).  A pull request whose status field equals "active" but
whose pullRequestId is 0 is excluded from the lister's output, so the claim
"written iff the status field equals active or completed" fails as stated: at
this input the status is "active", yet nothing at all is written. -/
theorem c2_counterexample :
    get_user_completed_prs [⟨some "active", some 0⟩] = [] := by
  rfl

/-- C2 (amended).  A pull request's identifier is written by the PR Lister iff
its status field equals "active" or "completed" AND it carries a truthy
pullRequestId (present and non-zero); the identifier written is the decimal
string of that pullRequestId. -/
theorem c2_amended_status_filter (prs : List PullRequest) (s : String) :
    s ∈ get_user_completed_prs prs ↔
      ∃ pr ∈ prs,
        (pr.status.getD "" = "active" ∨ pr.status.getD "" = "completed") ∧
        ∃ n : Int, pr.pullRequestId = some n ∧ n ≠ 0 ∧ s = toString n :=
  mem_user_prs prs s

/-- C3.  The Comment Fetcher's extraction equals the spec-side description:
for the threads in order, the comments in order, keep exactly those with
non-empty content and non-"system" type, with reviewer_name defaulting to
"Unknown" when the author display name is absent, and a thread without a
"comments" key contributing zero records. -/
theorem c3_extraction_matches_spec (threads_data : List ThreadData) :
    extractComments threads_data = specExtract threads_data := by
  unfold extractComments specExtract
  rw [List.flatMap_def]
  congr 1
  apply List.map_congr_left
  intro t _
  cases h : t.comments with
  | none => simp [h]
  | some cs => simp [h, filterMap_commentRecordOf]

/-- C4.  If repository-name-to-identifier resolution fails for the first
identifier the loop actually fetches (the call exits non-zero, its output is
unparseable, or the parsed response lacks an "id" field), the process exits
with non-zero status, a diagnostic is written to the error stream, and the
output file is left exactly in its initial state — missing if it was missing,
unmodified otherwise. -/
theorem c4_repo_resolution_failure_fatal (bads : List String) (id : String)
    (rest : List String) (outFile : OutFile) (env : Nat → PrEnv)
    (deleteOk : Bool) (n : Int)
    (hb : ∀ b ∈ bads, pyInt b = none) (hid : pyInt id = some n)
    (hrf : repoFail (env bads.length).repoShow) :
    (runOnIds (bads ++ id :: rest) outFile env deleteOk).exitCode = 1 ∧
    (runOnIds (bads ++ id :: rest) outFile env deleteOk).finalFile = outFile ∧
    (runOnIds (bads ++ id :: rest) outFile env deleteOk).errLog ≠ [] := by
  obtain ⟨d, hd, hne⟩ := processLoop_error_of_repoFail bads id rest env n hb hid hrf
  unfold runOnIds
  rw [hd]
  exact ⟨rfl, rfl, hne⟩

/-- C4 witness: a concrete run in which the `az repos show` call fails. -/
theorem c4_witness :
    pyInt "101" = some 101 ∧
    repoFail ((fun _ : Nat => PrEnv.mk .callFailed .callFailed) 0).repoShow ∧
    ((runOnIds ([] ++ "101" :: []) OutFile.missing
        (fun _ => PrEnv.mk .callFailed .callFailed) true).exitCode = 1 ∧
      (runOnIds ([] ++ "101" :: []) OutFile.missing
        (fun _ => PrEnv.mk .callFailed .callFailed) true).finalFile = OutFile.missing ∧
      (runOnIds ([] ++ "101" :: []) OutFile.missing
        (fun _ => PrEnv.mk .callFailed .callFailed) true).errLog ≠ []) :=
  ⟨by decide, Or.inl rfl,
    c4_repo_resolution_failure_fatal [] "101" [] OutFile.missing
      (fun _ => PrEnv.mk .callFailed .callFailed) true 101
      (by intro b hb; cases hb) (by decide) (Or.inl rfl)⟩

/-- C5.  The final output sequence equals the previously loaded records
concatenated with the newly fetched records; the newly fetched part depends
only on the identifiers and the platform responses, not on the existing file,
so a second run over the same world appends the same records again (no
deduplication) and doubles their count. -/
theorem c5_append_no_dedup (pr_ids : List String) (env : Nat → PrEnv)
    (e : List CommentRecord) (deleteOk : Bool)
    (h : (runOnIds pr_ids (OutFile.records e) env deleteOk).exitCode = 0) :
    ∃ nw,
      (∀ e', (runOnIds pr_ids (OutFile.records e') env deleteOk).exitCode = 0 ∧
        (runOnIds pr_ids (OutFile.records e') env deleteOk).finalFile =
          OutFile.records (e' ++ nw)) ∧
      (runOnIds pr_ids (OutFile.records (e ++ nw)) env deleteOk).finalFile =
        OutFile.records (e ++ (nw ++ nw)) ∧
      (nw ++ nw).length = 2 * nw.length := by
  cases hP : processLoop pr_ids env with
  | error p =>
    obtain ⟨d, ws⟩ := p
    unfold runOnIds at h
    rw [hP] at h
    simp at h
  | ok p =>
    obtain ⟨nw, ws⟩ := p
    refine ⟨nw, fun e' => ?_, ?_, ?_⟩
    · unfold runOnIds
      rw [hP]
      exact ⟨rfl, rfl⟩
    · unfold runOnIds
      rw [hP]
      simp only [loadExisting, DriverOutcome.mk.injEq]
      rw [List.append_assoc]
    · rw [List.length_append, Nat.two_mul]

/-- C5 witness: a concrete successful run starting from an empty file. -/
theorem c5_witness :
    (runOnIds ["101"] (OutFile.records [])
        (fun _ => PrEnv.mk (.parsed ⟨some "RID"⟩) (.parsed ⟨some []⟩)) true).exitCode
      = 0 ∧
    ∃ nw,
      (∀ e', (runOnIds ["101"] (OutFile.records e')
          (fun _ => PrEnv.mk (.parsed ⟨some "RID"⟩) (.parsed ⟨some []⟩)) true).exitCode
            = 0 ∧
        (runOnIds ["101"] (OutFile.records e')
          (fun _ => PrEnv.mk (.parsed ⟨some "RID"⟩) (.parsed ⟨some []⟩)) true).finalFile
            = OutFile.records (e' ++ nw)) ∧
      (runOnIds ["101"] (OutFile.records ([] ++ nw))
        (fun _ => PrEnv.mk (.parsed ⟨some "RID"⟩) (.parsed ⟨some []⟩)) true).finalFile
          = OutFile.records ([] ++ (nw ++ nw)) ∧
      (nw ++ nw).length = 2 * nw.length :=
  ⟨by decide,
    c5_append_no_dedup ["101"]
      (fun _ => PrEnv.mk (.parsed ⟨some "RID"⟩) (.parsed ⟨some []⟩)) [] true
      (by decide)⟩

/-- C7.  A run whose output file is initially absent, and a run whose output
file is initially unparseable JSON, behave exactly like a run whose output
file holds the empty record sequence: same exit code, same warnings, and on
success the very same outcome — loading falls through to the empty sequence
and the run proceeds. -/
theorem runOnIds_load_congr (pr_ids : List String) (env : Nat → PrEnv)
    (deleteOk : Bool) (o₁ o₂ : OutFile)
    (hload : loadExisting o₁ = loadExisting o₂) :
    (runOnIds pr_ids o₁ env deleteOk).exitCode =
      (runOnIds pr_ids o₂ env deleteOk).exitCode ∧
    (runOnIds pr_ids o₁ env deleteOk).warnedIds =
      (runOnIds pr_ids o₂ env deleteOk).warnedIds ∧
    ((runOnIds pr_ids o₁ env deleteOk).exitCode = 0 →
      runOnIds pr_ids o₁ env deleteOk = runOnIds pr_ids o₂ env deleteOk) := by
  simp only [runOnIds]
  cases hP : processLoop pr_ids env with
  | error p =>
    obtain ⟨d, ws⟩ := p
    exact ⟨rfl, rfl, fun hz => by simp at hz⟩
  | ok p =>
    obtain ⟨nw, ws⟩ := p
    rw [hload]
    exact ⟨rfl, rfl, fun _ => rfl⟩

theorem c7_missing_or_invalid_starts_empty (listerOk : Bool)
    (idsFile : Option String) (env : Nat → PrEnv) (deleteOk : Bool) :
    (mainRun listerOk idsFile OutFile.missing env deleteOk).exitCode =
      (mainRun listerOk idsFile (OutFile.records []) env deleteOk).exitCode ∧
    (mainRun listerOk idsFile OutFile.invalid env deleteOk).exitCode =
      (mainRun listerOk idsFile (OutFile.records []) env deleteOk).exitCode ∧
    (mainRun listerOk idsFile OutFile.missing env deleteOk).warnedIds =
      (mainRun listerOk idsFile (OutFile.records []) env deleteOk).warnedIds ∧
    (mainRun listerOk idsFile OutFile.invalid env deleteOk).warnedIds =
      (mainRun listerOk idsFile (OutFile.records []) env deleteOk).warnedIds ∧
    ((mainRun listerOk idsFile (OutFile.records []) env deleteOk).exitCode = 0 →
      mainRun listerOk idsFile OutFile.missing env deleteOk =
        mainRun listerOk idsFile (OutFile.records []) env deleteOk ∧
      mainRun listerOk idsFile OutFile.invalid env deleteOk =
        mainRun listerOk idsFile (OutFile.records []) env deleteOk) := by
  cases listerOk with
  | false => exact ⟨rfl, rfl, rfl, rfl, fun hz => by simp [mainRun] at hz⟩
  | true =>
    cases idsFile with
    | none => exact ⟨rfl, rfl, rfl, rfl, fun hz => by simp [mainRun] at hz⟩
    | some text =>
      have hm := runOnIds_load_congr (parseIdsFile text) env deleteOk
        OutFile.missing (OutFile.records []) rfl
      have hi := runOnIds_load_congr (parseIdsFile text) env deleteOk
        OutFile.invalid (OutFile.records []) rfl
      have heq : ∀ o : OutFile, mainRun true (some text) o env deleteOk =
          runOnIds (parseIdsFile text) o env deleteOk := fun _ => rfl
      simp only [heq]
      exact ⟨hm.1, hi.1, hm.2.1, hi.2.1,
        fun hz => ⟨hm.2.2 (hm.1.trans hz), hi.2.2 (hi.1.trans hz)⟩⟩

/-- C7 witness: concrete runs over one successfully fetched PR. -/
theorem c7_witness :
    (mainRun true (some "101,\n") OutFile.missing
        (fun _ => PrEnv.mk (.parsed ⟨some "RID"⟩) (.parsed ⟨some []⟩)) true).exitCode =
      (mainRun true (some "101,\n") (OutFile.records [])
        (fun _ => PrEnv.mk (.parsed ⟨some "RID"⟩) (.parsed ⟨some []⟩)) true).exitCode ∧
    (mainRun true (some "101,\n") OutFile.invalid
        (fun _ => PrEnv.mk (.parsed ⟨some "RID"⟩) (.parsed ⟨some []⟩)) true).exitCode =
      (mainRun true (some "101,\n") (OutFile.records [])
        (fun _ => PrEnv.mk (.parsed ⟨some "RID"⟩) (.parsed ⟨some []⟩)) true).exitCode ∧
    (mainRun true (some "101,\n") OutFile.missing
        (fun _ => PrEnv.mk (.parsed ⟨some "RID"⟩) (.parsed ⟨some []⟩)) true).warnedIds =
      (mainRun true (some "101,\n") (OutFile.records [])
        (fun _ => PrEnv.mk (.parsed ⟨some "RID"⟩) (.parsed ⟨some []⟩)) true).warnedIds ∧
    (mainRun true (some "101,\n") OutFile.invalid
        (fun _ => PrEnv.mk (.parsed ⟨some "RID"⟩) (.parsed ⟨some []⟩)) true).warnedIds =
      (mainRun true (some "101,\n") (OutFile.records [])
        (fun _ => PrEnv.mk (.parsed ⟨some "RID"⟩) (.parsed ⟨some []⟩)) true).warnedIds ∧
    ((mainRun true (some "101,\n") (OutFile.records [])
        (fun _ => PrEnv.mk (.parsed ⟨some "RID"⟩) (.parsed ⟨some []⟩)) true).exitCode = 0 →
      mainRun true (some "101,\n") OutFile.missing
          (fun _ => PrEnv.mk (.parsed ⟨some "RID"⟩) (.parsed ⟨some []⟩)) true =
        mainRun true (some "101,\n") (OutFile.records [])
          (fun _ => PrEnv.mk (.parsed ⟨some "RID"⟩) (.parsed ⟨some []⟩)) true ∧
      mainRun true (some "101,\n") OutFile.invalid
          (fun _ => PrEnv.mk (.parsed ⟨some "RID"⟩) (.parsed ⟨some []⟩)) true =
        mainRun true (some "101,\n") (OutFile.records [])
          (fun _ => PrEnv.mk (.parsed ⟨some "RID"⟩) (.parsed ⟨some []⟩)) true) :=
  c7_missing_or_invalid_starts_empty true (some "101,\n")
    (fun _ => PrEnv.mk (.parsed ⟨some "RID"⟩) (.parsed ⟨some []⟩)) true

/-- C10.  An identifier whose text does not parse as an integer does not abort
the run: the run has the same exit code and writes the same output file as the
run over the list with that identifier removed (with the per-position world
shifted accordingly), and whenever the run completes, a warning naming that
identifier was logged. -/
theorem c10_bad_id_skipped (ids₁ : List String) (bad : String)
    (ids₂ : List String) (outFile : OutFile) (env : Nat → PrEnv)
    (deleteOk : Bool) (h : pyInt bad = none) :
    (runOnIds (ids₁ ++ bad :: ids₂) outFile env deleteOk).exitCode =
      (runOnIds (ids₁ ++ ids₂) outFile (shiftEnv env ids₁.length) deleteOk).exitCode ∧
    (runOnIds (ids₁ ++ bad :: ids₂) outFile env deleteOk).finalFile =
      (runOnIds (ids₁ ++ ids₂) outFile (shiftEnv env ids₁.length) deleteOk).finalFile ∧
    ((runOnIds (ids₁ ++ bad :: ids₂) outFile env deleteOk).exitCode = 0 →
      bad ∈ (runOnIds (ids₁ ++ bad :: ids₂) outFile env deleteOk).warnedIds) := by
  have hs := processLoop_skip_strip ids₁ bad ids₂ env h
  unfold runOnIds
  cases hL : processLoop (ids₁ ++ bad :: ids₂) env with
  | error p =>
    obtain ⟨d, ws⟩ := p
    rw [hL] at hs
    cases hR : processLoop (ids₁ ++ ids₂) (shiftEnv env ids₁.length) with
    | error p' =>
      obtain ⟨d', ws'⟩ := p'
      exact ⟨rfl, rfl, fun hz => by simp at hz⟩
    | ok p' =>
      obtain ⟨cs', ws'⟩ := p'
      rw [hR] at hs
      simp [stripWarn] at hs
  | ok p =>
    obtain ⟨cs, ws⟩ := p
    rw [hL] at hs
    cases hR : processLoop (ids₁ ++ ids₂) (shiftEnv env ids₁.length) with
    | error p' =>
      obtain ⟨d', ws'⟩ := p'
      rw [hR] at hs
      simp [stripWarn] at hs
    | ok p' =>
      obtain ⟨cs', ws'⟩ := p'
      rw [hR] at hs
      simp only [stripWarn, Except.ok.injEq] at hs
      refine ⟨rfl, by rw [hs], fun _ => ?_⟩
      exact processLoop_warn_mem ids₁ bad ids₂ env cs ws h hL

/-- C10 witness: a concrete run in which the second identifier is "abc". -/
theorem c10_witness :
    pyInt "abc" = none ∧
    ((runOnIds (["101"] ++ "abc" :: ["103"]) OutFile.missing
        (fun _ => PrEnv.mk (.parsed ⟨some "RID"⟩) (.parsed ⟨some []⟩)) true).exitCode =
      (runOnIds (["101"] ++ ["103"]) OutFile.missing
        (shiftEnv (fun _ => PrEnv.mk (.parsed ⟨some "RID"⟩) (.parsed ⟨some []⟩))
          ["101"].length) true).exitCode ∧
    (runOnIds (["101"] ++ "abc" :: ["103"]) OutFile.missing
        (fun _ => PrEnv.mk (.parsed ⟨some "RID"⟩) (.parsed ⟨some []⟩)) true).finalFile =
      (runOnIds (["101"] ++ ["103"]) OutFile.missing
        (shiftEnv (fun _ => PrEnv.mk (.parsed ⟨some "RID"⟩) (.parsed ⟨some []⟩))
          ["101"].length) true).finalFile ∧
    ((runOnIds (["101"] ++ "abc" :: ["103"]) OutFile.missing
        (fun _ => PrEnv.mk (.parsed ⟨some "RID"⟩) (.parsed ⟨some []⟩)) true).exitCode = 0 →
      "abc" ∈ (runOnIds (["101"] ++ "abc" :: ["103"]) OutFile.missing
        (fun _ => PrEnv.mk (.parsed ⟨some "RID"⟩) (.parsed ⟨some []⟩)) true).warnedIds)) :=
  ⟨by decide,
    c10_bad_id_skipped ["101"] "abc" ["103"] OutFile.missing
      (fun _ => PrEnv.mk (.parsed ⟨some "RID"⟩) (.parsed ⟨some []⟩)) true (by decide)⟩

/-- C9.  A pull request whose pullRequestId is absent, null, or 0 contributes
nothing to the PR Lister's output even when its status is "active" or
"completed", and every identifier that is written is the decimal string of a
truthy (present, non-zero) pullRequestId of some listed pull request. -/
theorem c9_truthy_id_required (prs₁ prs₂ : List PullRequest) (pr : PullRequest)
    (h : pr.pullRequestId = none ∨ pr.pullRequestId = some 0) :
    get_user_completed_prs (prs₁ ++ pr :: prs₂) =
      get_user_completed_prs (prs₁ ++ prs₂) ∧
    ∀ s ∈ get_user_completed_prs (prs₁ ++ pr :: prs₂),
      ∃ q ∈ prs₁ ++ pr :: prs₂, ∃ n : Int,
        q.pullRequestId = some n ∧ n ≠ 0 ∧ s = toString n := by
  refine ⟨user_prs_drop_untruthy prs₁ prs₂ pr h, fun s hs => ?_⟩
  obtain ⟨q, hq, _, n, hn, hnz, hs'⟩ := (mem_user_prs _ s).mp hs
  exact ⟨q, hq, n, hn, hnz, hs'⟩

/-- C9 witness: an "active" pull request with id 0 between two kept ones. -/
theorem c9_witness :
    ((⟨some "active", some 0⟩ : PullRequest).pullRequestId = none ∨
      (⟨some "active", some 0⟩ : PullRequest).pullRequestId = some 0) ∧
    (get_user_completed_prs
        ([⟨some "completed", some 7⟩] ++ ⟨some "active", some 0⟩ ::
          [⟨some "active", some 8⟩]) =
      get_user_completed_prs
        ([⟨some "completed", some 7⟩] ++ [⟨some "active", some 8⟩]) ∧
    ∀ s ∈ get_user_completed_prs
        ([⟨some "completed", some 7⟩] ++ ⟨some "active", some 0⟩ ::
          [⟨some "active", some 8⟩]),
      ∃ q ∈ [⟨some "completed", some 7⟩] ++
          (⟨some "active", some 0⟩ : PullRequest) :: [⟨some "active", some 8⟩],
        ∃ n : Int, q.pullRequestId = some n ∧ n ≠ 0 ∧ s = toString n) :=
  ⟨Or.inr rfl,
    c9_truthy_id_required [⟨some "completed", some 7⟩] [⟨some "active", some 8⟩]
      ⟨some "active", some 0⟩ (Or.inr rfl)⟩

/-! ## Round-trip of the identifier file (C6) -/

/-- The identifier file with its final newline removed: rows joined by
newlines, each row being an identifier followed by its comma. -/
def interRows : List (List Char) → List Char
  | [] => []
  | [r] => r ++ [',']
  | r :: l => r ++ ',' :: '\n' :: interRows l

/-- A row as the lister writes it: non-empty, free of whitespace characters,
and not itself ending in a comma (decimal identifier strings are all such). -/
def GoodRow (r : List Char) : Prop :=
  r ≠ [] ∧ (∀ c ∈ r, isPyWs c = false) ∧ r.getLast? ≠ some ','

/-- Unfolding equation of splitLines on a cons cell. -/
theorem splitLines_cons (c : Char) (cs : List Char) :
    splitLines (c :: cs) =
      if c = '\n' then [] :: splitLines cs
      else
        match splitLines cs with
        | [] => [[c]]
        | l :: ls => (c :: l) :: ls := by
  rfl

theorem dropWhile_eq_self_of_forall {α : Type} (p : α → Bool) (l : List α)
    (h : ∀ c ∈ l, p c = false) : l.dropWhile p = l := by
  cases l with
  | nil => rfl
  | cons a t => rw [List.dropWhile_cons, h a (List.mem_cons_self a t)]; simp

/-- The file content is the newline-joined rows plus a final newline. -/
theorem writeIdsFileChars_eq (l : List (List Char)) (hne : l ≠ []) :
    writeIdsFileChars l = interRows l ++ ['\n'] := by
  induction l with
  | nil => exact absurd rfl hne
  | cons r l' ih =>
    cases l' with
    | nil => simp [writeIdsFileChars, interRows]
    | cons r₂ l'' =>
      have h2 : writeIdsFileChars (r₂ :: l'') = interRows (r₂ :: l'') ++ ['\n'] :=
        ih (by simp)
      have hflat : writeIdsFileChars (r :: r₂ :: l'') =
          (r ++ [',', '\n']) ++ writeIdsFileChars (r₂ :: l'') := by
        simp [writeIdsFileChars]
      rw [hflat, h2]
      show (r ++ [',', '\n']) ++ (interRows (r₂ :: l'') ++ ['\n']) =
        (r ++ ',' :: '\n' :: interRows (r₂ :: l'')) ++ ['\n']
      simp

/-- The joined rows end in a comma. -/
theorem interRows_reverse_comma (l : List (List Char)) (hne : l ≠ []) :
    ∃ t, (interRows l).reverse = ',' :: t := by
  induction l with
  | nil => exact absurd rfl hne
  | cons r l' ih =>
    cases l' with
    | nil => exact ⟨r.reverse, by simp [interRows]⟩
    | cons r₂ l'' =>
      obtain ⟨t, ht⟩ := ih (by simp)
      refine ⟨t ++ '\n' :: ',' :: r.reverse, ?_⟩
      show (r ++ ',' :: '\n' :: interRows (r₂ :: l'')).reverse = _
      rw [List.reverse_append]
      show (',' :: '\n' :: interRows (r₂ :: l'')).reverse ++ r.reverse = _
      have : (',' :: '\n' :: interRows (r₂ :: l'')).reverse =
          (interRows (r₂ :: l'')).reverse ++ ['\n', ','] := by simp
      rw [this, ht]
      simp

/-- Stripping the file content removes exactly the final newline. -/
theorem pyStrip_writeIds (l : List (List Char)) (hne : l ≠ [])
    (hrows : ∀ r ∈ l, GoodRow r) :
    pyStripChars (writeIdsFileChars l) = interRows l := by
  obtain ⟨r₁, l', rfl⟩ : ∃ r₁ l', l = r₁ :: l' := by
    cases l with
    | nil => exact absurd rfl hne
    | cons a b => exact ⟨a, b, rfl⟩
  rw [writeIdsFileChars_eq _ hne]
  obtain ⟨hne₁, hws₁, _⟩ := hrows r₁ (List.mem_cons_self r₁ l')
  obtain ⟨c₁, r₁', rfl⟩ : ∃ c₁ r₁', r₁ = c₁ :: r₁' := by
    cases r₁ with
    | nil => exact absurd rfl hne₁
    | cons a b => exact ⟨a, b, rfl⟩
  unfold pyStripChars
  have hhead : ∀ X : List Char, interRows ((c₁ :: r₁') :: l') ++ ['\n'] =
      c₁ :: X → List.dropWhile isPyWs (c₁ :: X) = c₁ :: X := by
    intro X _
    rw [List.dropWhile_cons, hws₁ c₁ (List.mem_cons_self c₁ r₁')]
    simp
  have hshape : ∃ X, interRows ((c₁ :: r₁') :: l') ++ ['\n'] = c₁ :: X := by
    cases l' with
    | nil => exact ⟨r₁' ++ [','] ++ ['\n'], by simp [interRows]⟩
    | cons r₂ l'' =>
      exact ⟨(r₁' ++ ',' :: '\n' :: interRows (r₂ :: l'')) ++ ['\n'],
        by simp [interRows]⟩
  obtain ⟨X, hX⟩ := hshape
  rw [hX, hhead X hX, ← hX]
  rw [List.reverse_append]
  show (List.dropWhile isPyWs
    (['\n'].reverse ++ (interRows ((c₁ :: r₁') :: l')).reverse)).reverse = _
  have hrev : ['\n'].reverse ++ (interRows ((c₁ :: r₁') :: l')).reverse =
      '\n' :: (interRows ((c₁ :: r₁') :: l')).reverse := by simp
  rw [hrev, List.dropWhile_cons]
  have : isPyWs '\n' = true := by decide
  rw [this]
  simp only [if_true]
  obtain ⟨t, ht⟩ := interRows_reverse_comma ((c₁ :: r₁') :: l') (by simp)
  rw [ht, List.dropWhile_cons]
  have : isPyWs ',' = false := by decide
  rw [this]
  simp only [Bool.false_eq_true, if_false]
  rw [← ht]
  simp

/-- Splitting a newline-free list yields one field. -/
theorem splitLines_no_newline (m : List Char) (h : ∀ c ∈ m, c ≠ '\n') :
    splitLines m = [m] := by
  induction m with
  | nil => rfl
  | cons c t ih =>
    rw [splitLines_cons, if_neg (h c (List.mem_cons_self c t)),
      ih (fun x hx => h x (List.mem_cons_of_mem c hx))]

/-- Splitting at an explicit newline after a newline-free field. -/
theorem splitLines_append_newline (a b : List Char) (h : ∀ c ∈ a, c ≠ '\n') :
    splitLines (a ++ '\n' :: b) = a :: splitLines b := by
  induction a with
  | nil =>
    show splitLines ('\n' :: b) = [] :: splitLines b
    rw [splitLines_cons, if_pos rfl]
  | cons c t ih =>
    show splitLines (c :: (t ++ '\n' :: b)) = (c :: t) :: splitLines b
    rw [splitLines_cons, if_neg (h c (List.mem_cons_self c t)),
      ih (fun x hx => h x (List.mem_cons_of_mem c hx))]

/-- Splitting the joined rows recovers each row with its trailing comma. -/
theorem splitLines_interRows (l : List (List Char)) (hne : l ≠ [])
    (hrows : ∀ r ∈ l, GoodRow r) :
    splitLines (interRows l) = l.map (fun r => r ++ [',']) := by
  induction l with
  | nil => exact absurd rfl hne
  | cons r l' ih =>
    have hnl : ∀ c ∈ r ++ [','], c ≠ '\n' := by
      intro c hc
      rcases List.mem_append.mp hc with hc | hc
      · intro he
        have := (hrows r (List.mem_cons_self r l')).2.1 c hc
        rw [he] at this
        exact absurd this (by decide)
      · rw [List.mem_singleton.mp hc]; decide
    cases l' with
    | nil =>
      show splitLines (r ++ [',']) = [r ++ [',']]
      exact splitLines_no_newline _ hnl
    | cons r₂ l'' =>
      have hmain : interRows (r :: r₂ :: l'') =
          (r ++ [',']) ++ '\n' :: interRows (r₂ :: l'') := by
        show r ++ ',' :: '\n' :: interRows (r₂ :: l'') = _
        simp
      rw [hmain, splitLines_append_newline _ _ hnl,
        ih (by simp) (fun x hx => hrows x (List.mem_cons_of_mem r hx))]
      rfl

/-- Stripping the trailing comma of a written row recovers the identifier. -/
theorem pyRstripComma_row (r : List Char) (hne : r ≠ [])
    (hlast : r.getLast? ≠ some ',') : pyRstripComma (r ++ [',']) = r := by
  unfold pyRstripComma
  rw [List.reverse_append]
  show (List.dropWhile (fun c => c = ',') (',' :: r.reverse)).reverse = r
  have hcomma : ((fun c : Char => decide (c = ',')) ',' = true) := by decide
  rw [List.dropWhile_cons, if_pos hcomma]
  obtain ⟨c, t, hct⟩ : ∃ c t, r.reverse = c :: t := by
    cases hr : r.reverse with
    | nil => exact absurd (by simpa using congrArg List.reverse hr) hne
    | cons a b => exact ⟨a, b, rfl⟩
  have hcne : c ≠ ',' := by
    intro he
    apply hlast
    rw [List.getLast?_eq_head?_reverse, hct, he]
    rfl
  rw [hct, List.dropWhile_cons]
  simp only [decide_eq_true_eq, hcne, if_false]
  rw [← hct]
  simp

/-- C6.  For every identifier list in the shape the PR Lister writes (each
identifier non-empty, whitespace-free and not ending in a comma — decimal
identifier strings always are), writing the intermediate file as `<id>,\n`
lines and parsing it back with the Aggregation Driver's line parse yields
exactly the same identifier strings in the same order. -/
theorem c6_ids_file_roundtrip (ids : List String)
    (h : ∀ s ∈ ids, s.data ≠ [] ∧ (∀ c ∈ s.data, isPyWs c = false) ∧
      s.data.getLast? ≠ some ',') :
    parseIdsFile (writeIdsFile ids) = ids := by
  cases ids with
  | nil => rfl
  | cons s₀ ids' =>
    have hrows : ∀ r ∈ (s₀ :: ids').map String.data, GoodRow r := by
      intro r hr
      obtain ⟨s, hs, rfl⟩ := List.mem_map.mp hr
      exact h s hs
    have hne : (s₀ :: ids').map String.data ≠ [] := by simp
    unfold parseIdsFile writeIdsFile
    show (splitLines (pyStripChars (writeIdsFileChars
      ((s₀ :: ids').map String.data)))).filterMap _ = _
    rw [pyStrip_writeIds _ hne hrows, splitLines_interRows _ hne hrows,
      List.filterMap_map]
    have hpt : ∀ r ∈ (s₀ :: ids').map String.data,
        ((fun line => if pyStripChars line = [] then none
          else some (String.mk (pyRstripComma (pyStripChars line)))) ∘
          (fun r => r ++ [','])) r = (some ∘ String.mk) r := by
      intro r hr
      obtain ⟨hne', hws, hlast⟩ := hrows r hr
      have hwsc : ∀ c ∈ r ++ [','], isPyWs c = false := by
        intro c hc
        rcases List.mem_append.mp hc with hc | hc
        · exact hws c hc
        · rw [List.mem_singleton.mp hc]; decide
      have hstr : pyStripChars (r ++ [',']) = r ++ [','] := by
        unfold pyStripChars
        rw [dropWhile_eq_self_of_forall _ _ hwsc]
        rw [dropWhile_eq_self_of_forall _ _
          (fun c hc => hwsc c (List.mem_reverse.mp hc))]
        simp
      show (if pyStripChars (r ++ [',']) = [] then none
        else some (String.mk (pyRstripComma (pyStripChars (r ++ [',']))))) =
          some (String.mk r)
      rw [hstr, if_neg (by simp), pyRstripComma_row r hne' hlast]
    rw [List.filterMap_congr hpt, List.filterMap_eq_map, List.map_map]
    show ((s₀ :: ids').map (fun s => String.mk s.data)) = s₀ :: ids'
    simp

/-- C6 witness: the spec's example file "101,\n102,\n". -/
theorem c6_witness :
    (∀ s ∈ ["101", "102"], s.data ≠ [] ∧ (∀ c ∈ s.data, isPyWs c = false) ∧
      s.data.getLast? ≠ some ',') ∧
    parseIdsFile (writeIdsFile ["101", "102"]) = ["101", "102"] :=
  ⟨by decide, c6_ids_file_roundtrip ["101", "102"] (by decide)⟩

/-! ## JSON persistence of the output file (C8)

main writes the output with json.dump(all_comments, f, indent=2,
ensure_ascii=False) and the next run reads it back with json.load.  The
documents this program writes are JSON arrays of objects whose values are all
strings, so the Python json library is modelled on exactly that fragment: a
renderer reproducing json.dump's output for such documents, and a parser
modelling json.load on them. -/

/-- JSON whitespace accepted between tokens by the Python json parser. -/
def jsonWs (c : Char) : Bool :=
  c = ' ' || c = '\t' || c = '\n' || c = '\r'

/-- Skip JSON whitespace. -/
def skipWs (l : List Char) : List Char :=
  l.dropWhile jsonWs

/-- Lowercase hexadecimal digit, as json.dump emits in \u escapes. -/
def hexChar (n : Nat) : Char :=
  if n < 10 then Char.ofNat (48 + n) else Char.ofNat (87 + n)

/-- Value of a hexadecimal digit; json.load accepts both cases. -/
def hexVal? (c : Char) : Option Nat :=
  if 48 ≤ c.toNat ∧ c.toNat ≤ 57 then some (c.toNat - 48)
  else if 97 ≤ c.toNat ∧ c.toNat ≤ 102 then some (c.toNat - 87)
  else if 65 ≤ c.toNat ∧ c.toNat ≤ 70 then some (c.toNat - 55)
  else none

/-- How json.dump with ensure_ascii=False writes one character inside a
string literal: quote and backslash are escaped, the five named control
characters use their short escapes, the remaining control characters use
\u00xx, and every other character (non-ASCII included) is written literally. -/
def escChar (c : Char) : List Char :=
  if c = '"' then ['\\', '"']
  else if c = '\\' then ['\\', '\\']
  else if c = Char.ofNat 8 then ['\\', 'b']
  else if c = Char.ofNat 12 then ['\\', 'f']
  else if c = '\n' then ['\\', 'n']
  else if c = '\r' then ['\\', 'r']
  else if c = '\t' then ['\\', 't']
  else if c.toNat < 32 then
    ['\\', 'u', '0', '0', hexChar (c.toNat / 16), hexChar (c.toNat % 16)]
  else [c]

/-- A JSON string literal: quote, escaped characters, quote. -/
def qstrChars (s : List Char) : List Char :=
  '"' :: (s.flatMap escChar ++ ['"'])

/-- The dict literal main builds for one record, in insertion order (the order
json.dump writes the keys). -/
def encodeRecord (r : CommentRecord) : List (String × String) :=
  [("reviewer_name", r.reviewer_name), ("comment", r.comment), ("date", r.date)]

/-- One rendered object member at indent 4: `    "key": "value"`. -/
def memberChars (kv : String × String) : List Char :=
  [' ', ' ', ' ', ' '] ++ (qstrChars kv.1.data ++ ([':', ' '] ++ qstrChars kv.2.data))

/-- The members of an object after the first, each preceded by the item
separator `,\n`. -/
def tailText : List (String × String) → List Char
  | [] => []
  | kv :: rest => [',', '\n'] ++ (memberChars kv ++ tailText rest)

/-- All members of an object, separated by `,\n`. -/
def membersChars : List (String × String) → List Char
  | [] => []
  | kv :: rest => memberChars kv ++ tailText rest

/-- One rendered array item at indent 2: the object over its own lines, or
`  {}` when empty. -/
def itemChars (fields : List (String × String)) : List Char :=
  if fields = [] then [' ', ' ', '{', '}']
  else [' ', ' ', '{', '\n'] ++ (membersChars fields ++ ['\n', ' ', ' ', '}'])

/-- The items of the array after the first, each preceded by `,\n`. -/
def tailItems : List (List (String × String)) → List Char
  | [] => []
  | f :: rest => [',', '\n'] ++ (itemChars f ++ tailItems rest)

/-- All items of the array, separated by `,\n`. -/
def itemsChars : List (List (String × String)) → List Char
  | [] => []
  | f :: rest => itemChars f ++ tailItems rest

/-- json.dump(records, f, indent=2, ensure_ascii=False) as main calls it: `[]`
for the empty list, otherwise the items over their own lines inside brackets. -/
def pyJsonDumpRecords (rs : List CommentRecord) : String :=
  match rs with
  | [] => "[]"
  | _ => String.mk (['[', '\n'] ++ (itemsChars (rs.map encodeRecord) ++ ['\n', ']']))

/-- Body of a JSON string literal after the opening quote, as json.load scans
it: literal characters up to the closing quote, backslash escapes (including
\uXXXX), and a hard error on a raw control character (strict mode). -/
def parseStringBody : List Char → Option (List Char × List Char)
  | [] => none
  | c :: rest =>
    if c = '"' then some ([], rest)
    else if c = '\\' then
      match rest with
      | [] => none
      | e :: rest2 =>
        if e = '"' then (parseStringBody rest2).map (fun p => ('"' :: p.1, p.2))
        else if e = '\\' then (parseStringBody rest2).map (fun p => ('\\' :: p.1, p.2))
        else if e = '/' then (parseStringBody rest2).map (fun p => ('/' :: p.1, p.2))
        else if e = 'b' then
          (parseStringBody rest2).map (fun p => (Char.ofNat 8 :: p.1, p.2))
        else if e = 'f' then
          (parseStringBody rest2).map (fun p => (Char.ofNat 12 :: p.1, p.2))
        else if e = 'n' then (parseStringBody rest2).map (fun p => ('\n' :: p.1, p.2))
        else if e = 'r' then (parseStringBody rest2).map (fun p => ('\r' :: p.1, p.2))
        else if e = 't' then (parseStringBody rest2).map (fun p => ('\t' :: p.1, p.2))
        else if e = 'u' then
          match rest2 with
          | h1 :: h2 :: h3 :: h4 :: rest3 =>
            match hexVal? h1, hexVal? h2, hexVal? h3, hexVal? h4 with
            | some a, some b, some c2, some d =>
              (parseStringBody rest3).map
                (fun p => (Char.ofNat (4096 * a + 256 * b + 16 * c2 + d) :: p.1, p.2))
            | _, _, _, _ => none
          | _ => none
        else none
    else if c.toNat < 32 then none
    else (parseStringBody rest).map (fun p => (c :: p.1, p.2))

/-- A quoted JSON string starting at the current position. -/
def parseQString (l : List Char) : Option (String × List Char) :=
  match l with
  | [] => none
  | c :: rest =>
    if c = '"' then (parseStringBody rest).map (fun p => (String.mk p.1, p.2))
    else none

/-- One `"key": "value"` member, with whitespace allowed around the tokens as
json.load allows it. -/
def parseMember (l : List Char) : Option ((String × String) × List Char) :=
  match parseQString (skipWs l) with
  | none => none
  | some (k, r1) =>
    match skipWs r1 with
    | [] => none
    | c :: r2 =>
      if c = ':' then
        match parseQString (skipWs r2) with
        | none => none
        | some (v, r3) => some ((k, v), r3)
      else none

/-- The members of an object after the first: `, member` repeated, closed by
`}`.  The fuel bounds the number of members; callers pass more fuel than the
remaining input length, which the remaining members can never exceed. -/
def parseMembersTail (fuel : Nat) (l : List Char) :
    Option (List (String × String) × List Char) :=
  match fuel with
  | 0 => none
  | fuel' + 1 =>
    match skipWs l with
    | [] => none
    | c :: r =>
      if c = '}' then some ([], r)
      else if c = ',' then
        match parseMember r with
        | none => none
        | some (kv, r2) =>
          match parseMembersTail fuel' r2 with
          | none => none
          | some (kvs, r3) => some (kv :: kvs, r3)
      else none

/-- One object with string values: `{}`, or `{ member (, member)* }`. -/
def parseObjItem (l : List Char) : Option (List (String × String) × List Char) :=
  match skipWs l with
  | [] => none
  | c :: r =>
    if c = '{' then
      match skipWs r with
      | [] => none
      | c2 :: r2 =>
        if c2 = '}' then some ([], r2)
        else
          match parseMember r with
          | none => none
          | some (kv, r3) =>
            match parseMembersTail (r3.length + 1) r3 with
            | none => none
            | some (kvs, r4) => some (kv :: kvs, r4)
    else none

/-- The items of the array after the first: `, item` repeated, closed by `]`. -/
def parseElemsTail (fuel : Nat) (l : List Char) :
    Option (List (List (String × String)) × List Char) :=
  match fuel with
  | 0 => none
  | fuel' + 1 =>
    match skipWs l with
    | [] => none
    | c :: r =>
      if c = ']' then some ([], r)
      else if c = ',' then
        match parseObjItem r with
        | none => none
        | some (f, r2) =>
          match parseElemsTail fuel' r2 with
          | none => none
          | some (fs, r3) => some (f :: fs, r3)
      else none

/-- json.load on a document of the fragment this program writes: a JSON array
of objects with string values, with nothing but whitespace after it. -/
def pyJsonLoadRecords (s : String) : Option (List (List (String × String))) :=
  match skipWs s.data with
  | [] => none
  | c :: r =>
    if c = '[' then
      match skipWs r with
      | [] => none
      | c2 :: r2 =>
        if c2 = ']' then if skipWs r2 = [] then some [] else none
        else
          match parseObjItem r with
          | none => none
          | some (f, r3) =>
            match parseElemsTail (r3.length + 1) r3 with
            | none => none
            | some (fs, r4) => if skipWs r4 = [] then some (f :: fs) else none
    else none

/-- Read a loaded dict back as the record it encodes: exactly the three keys
main writes, in the order json.dump wrote them. -/
def decodeRecord : List (String × String) → Option CommentRecord
  | [(k1, a), (k2, b), (k3, c)] =>
    if k1 = "reviewer_name" ∧ k2 = "comment" ∧ k3 = "date" then some ⟨a, b, c⟩
    else none
  | _ => none

/-! ## Round-trip lemmas for the JSON model -/

theorem skipWs_ws_cons (c : Char) (l : List Char) (h : jsonWs c = true) :
    skipWs (c :: l) = skipWs l := by
  unfold skipWs
  rw [List.dropWhile_cons, if_pos h]

theorem skipWs_not_ws (c : Char) (l : List Char) (h : jsonWs c = false) :
    skipWs (c :: l) = c :: l := by
  unfold skipWs
  rw [List.dropWhile_cons, h]
  simp

theorem skipWs_append_ws (a b : List Char) (h : ∀ c ∈ a, jsonWs c = true) :
    skipWs (a ++ b) = skipWs b := by
  induction a with
  | nil => rfl
  | cons c t ih =>
    rw [List.cons_append, skipWs_ws_cons _ _ (h c (List.mem_cons_self c t)),
      ih (fun x hx => h x (List.mem_cons_of_mem c hx))]

theorem hexVal_hexChar (n : Nat) (h : n < 16) : hexVal? (hexChar n) = some n := by
  interval_cases n <;> decide

/-- Parsing back an escaped string body recovers the original characters. -/
theorem parseStringBody_escape (s : List Char) :
    ∀ rest, parseStringBody (s.flatMap escChar ++ ('"' :: rest)) = some (s, rest) := by
  induction s with
  | nil =>
    intro rest
    simp only [List.flatMap_nil, List.nil_append]
    rw [parseStringBody.eq_def]
    simp
  | cons c s' ih =>
    intro rest
    rw [List.flatMap_cons, List.append_assoc]
    by_cases h1 : c = '"'
    · subst h1
      show parseStringBody ('\\' :: '"' :: (s'.flatMap escChar ++ ('"' :: rest))) = _
      rw [parseStringBody.eq_def]
      simp [ih rest]
    by_cases h2 : c = '\\'
    · subst h2
      show parseStringBody ('\\' :: '\\' :: (s'.flatMap escChar ++ ('"' :: rest))) = _
      rw [parseStringBody.eq_def]
      simp [ih rest]
    by_cases hb : c = Char.ofNat 8
    · subst hb
      show parseStringBody ('\\' :: 'b' :: (s'.flatMap escChar ++ ('"' :: rest))) = _
      rw [parseStringBody.eq_def]
      simp [ih rest]
    by_cases hf : c = Char.ofNat 12
    · subst hf
      show parseStringBody ('\\' :: 'f' :: (s'.flatMap escChar ++ ('"' :: rest))) = _
      rw [parseStringBody.eq_def]
      simp [ih rest]
    by_cases hn : c = '\n'
    · subst hn
      show parseStringBody ('\\' :: 'n' :: (s'.flatMap escChar ++ ('"' :: rest))) = _
      rw [parseStringBody.eq_def]
      simp [ih rest]
    by_cases hr : c = '\r'
    · subst hr
      show parseStringBody ('\\' :: 'r' :: (s'.flatMap escChar ++ ('"' :: rest))) = _
      rw [parseStringBody.eq_def]
      simp [ih rest]
    by_cases ht : c = '\t'
    · subst ht
      show parseStringBody ('\\' :: 't' :: (s'.flatMap escChar ++ ('"' :: rest))) = _
      rw [parseStringBody.eq_def]
      simp [ih rest]
    by_cases hlt : c.toNat < 32
    · have hesc : escChar c =
          ['\\', 'u', '0', '0', hexChar (c.toNat / 16), hexChar (c.toNat % 16)] := by
        unfold escChar
        rw [if_neg h1, if_neg h2, if_neg hb, if_neg hf, if_neg hn, if_neg hr,
          if_neg ht, if_pos hlt]
      rw [hesc]
      have h0 : hexVal? '0' = some 0 := by decide
      have hhi : hexVal? (hexChar (c.toNat / 16)) = some (c.toNat / 16) :=
        hexVal_hexChar _ (by omega)
      have hlo : hexVal? (hexChar (c.toNat % 16)) = some (c.toNat % 16) :=
        hexVal_hexChar _ (by omega)
      have hc : Char.ofNat (16 * (c.toNat / 16) + c.toNat % 16) = c := by
        have hdm := Nat.div_add_mod c.toNat 16
        have heq : 16 * (c.toNat / 16) + c.toNat % 16 = c.toNat := by omega
        rw [heq, Char.ofNat_toNat]
      show parseStringBody ('\\' :: 'u' :: '0' :: '0' :: hexChar (c.toNat / 16) ::
        hexChar (c.toNat % 16) :: (s'.flatMap escChar ++ ('"' :: rest))) = _
      rw [parseStringBody.eq_def]
      simp [h0, hhi, hlo, hc, ih rest]
    · have hesc : escChar c = [c] := by
        unfold escChar
        rw [if_neg h1, if_neg h2, if_neg hb, if_neg hf, if_neg hn, if_neg hr,
          if_neg ht, if_neg hlt]
      rw [hesc]
      show parseStringBody (c :: (s'.flatMap escChar ++ ('"' :: rest))) = _
      rw [parseStringBody.eq_def]
      simp [h1, h2, hlt, ih rest]

/-- Parsing back a rendered string literal recovers the string. -/
theorem parseQString_render (s : String) (rest : List Char) :
    parseQString ('"' :: (s.data.flatMap escChar ++ ('"' :: rest))) =
      some (s, rest) := by
  have h := parseStringBody_escape s.data rest
  simp [parseQString, h]

/-- Parsing back a rendered member after any whitespace recovers the pair. -/
theorem parseMember_render (pre : List Char) (hpre : ∀ c ∈ pre, jsonWs c = true)
    (k v : String) (rest : List Char) :
    parseMember (pre ++ (memberChars (k, v) ++ rest)) = some ((k, v), rest) := by
  have hP : ∀ b, skipWs (pre ++ b) = skipWs b := fun b => skipWs_append_ws pre b hpre
  have hflat : memberChars (k, v) ++ rest =
      ' ' :: ' ' :: ' ' :: ' ' :: ('"' :: (k.data.flatMap escChar ++
        ('"' :: ':' :: ' ' :: ('"' :: (v.data.flatMap escChar ++ ('"' :: rest)))))) := by
    simp [memberChars, qstrChars]
  have hq1 := parseQString_render k
    (':' :: ' ' :: ('"' :: (v.data.flatMap escChar ++ ('"' :: rest))))
  have hq2 := parseQString_render v rest
  simp [parseMember, hflat, hP, hq1, hq2, skipWs_ws_cons, skipWs_not_ws, jsonWs]

theorem tailText_length (kvs : List (String × String)) :
    kvs.length ≤ (tailText kvs).length := by
  induction kvs with
  | nil => simp [tailText]
  | cons kv r ih => simp [tailText]; omega

/-- Parsing back the rendered members after the first recovers them, given
enough fuel. -/
theorem parseMembersTail_render (kvs : List (String × String)) :
    ∀ fuel rest, kvs.length < fuel →
      parseMembersTail fuel
        (tailText kvs ++ ('\n' :: ' ' :: ' ' :: '}' :: rest)) = some (kvs, rest) := by
  induction kvs with
  | nil =>
    intro fuel rest hf
    obtain ⟨f', rfl⟩ : ∃ f', fuel = f' + 1 := ⟨fuel - 1, by omega⟩
    simp [tailText, parseMembersTail, skipWs_ws_cons, skipWs_not_ws, jsonWs]
  | cons kv kvs' ih =>
    intro fuel rest hf
    obtain ⟨f', rfl⟩ : ∃ f', fuel = f' + 1 := ⟨fuel - 1, by omega⟩
    have hflat : tailText (kv :: kvs') ++ ('\n' :: ' ' :: ' ' :: '}' :: rest) =
        ',' :: '\n' :: (memberChars kv ++
          (tailText kvs' ++ ('\n' :: ' ' :: ' ' :: '}' :: rest))) := by
      simp [tailText]
    rw [hflat]
    have hm : parseMember ('\n' :: (memberChars kv ++
        (tailText kvs' ++ ('\n' :: ' ' :: ' ' :: '}' :: rest)))) =
          some (kv, tailText kvs' ++ ('\n' :: ' ' :: ' ' :: '}' :: rest)) := by
      simpa using parseMember_render ['\n'] (by decide) kv.1 kv.2
        (tailText kvs' ++ ('\n' :: ' ' :: ' ' :: '}' :: rest))
    have hrec := ih f' rest (by simpa using Nat.lt_of_succ_lt_succ hf)
    simp [parseMembersTail, skipWs_not_ws, jsonWs, hm, hrec]

/-- Parsing back a rendered array item after any whitespace recovers its
fields. -/
theorem parseObjItem_render (pre : List Char) (hpre : ∀ c ∈ pre, jsonWs c = true)
    (fields : List (String × String)) (rest : List Char) :
    parseObjItem (pre ++ (itemChars fields ++ rest)) = some (fields, rest) := by
  have hP : ∀ b, skipWs (pre ++ b) = skipWs b := fun b => skipWs_append_ws pre b hpre
  cases fields with
  | nil =>
    have hflat : itemChars [] ++ rest = ' ' :: ' ' :: '{' :: '}' :: rest := by
      simp [itemChars]
    rw [hflat]
    simp [parseObjItem, hP, skipWs_ws_cons, skipWs_not_ws, jsonWs]
  | cons kv kvs =>
    have hflat : itemChars (kv :: kvs) ++ rest =
        ' ' :: ' ' :: '{' :: ('\n' :: (memberChars kv ++
          (tailText kvs ++ ('\n' :: ' ' :: ' ' :: '}' :: rest)))) := by
      simp [itemChars, membersChars]
    rw [hflat]
    have hskipr : skipWs ('\n' :: (memberChars kv ++
        (tailText kvs ++ ('\n' :: ' ' :: ' ' :: '}' :: rest)))) =
          '"' :: (kv.1.data.flatMap escChar ++
            ('"' :: ':' :: ' ' :: ('"' :: (kv.2.data.flatMap escChar ++
              ('"' :: (tailText kvs ++ ('\n' :: ' ' :: ' ' :: '}' :: rest))))))) := by
      simp [memberChars, qstrChars, skipWs_ws_cons, skipWs_not_ws, jsonWs]
    have hm : parseMember ('\n' :: (memberChars kv ++
        (tailText kvs ++ ('\n' :: ' ' :: ' ' :: '}' :: rest)))) =
          some (kv, tailText kvs ++ ('\n' :: ' ' :: ' ' :: '}' :: rest)) := by
      simpa using parseMember_render ['\n'] (by decide) kv.1 kv.2
        (tailText kvs ++ ('\n' :: ' ' :: ' ' :: '}' :: rest))
    have hrec := parseMembersTail_render kvs
      ((tailText kvs).length + (rest.length + 1 + 1 + 1 + 1) + 1) rest
      (by have := tailText_length kvs; omega)
    simp [parseObjItem, hP, hskipr, hm, hrec, skipWs_ws_cons, skipWs_not_ws, jsonWs]

theorem tailItems_length (fs : List (List (String × String))) :
    fs.length ≤ (tailItems fs).length := by
  induction fs with
  | nil => simp [tailItems]
  | cons f r ih => simp [tailItems]; omega

/-- Parsing back the rendered items after the first recovers them, given
enough fuel. -/
theorem parseElemsTail_render (fs : List (List (String × String))) :
    ∀ fuel rest, fs.length < fuel →
      parseElemsTail fuel (tailItems fs ++ ('\n' :: ']' :: rest)) = some (fs, rest) := by
  induction fs with
  | nil =>
    intro fuel rest hf
    obtain ⟨f', rfl⟩ : ∃ f', fuel = f' + 1 := ⟨fuel - 1, by omega⟩
    simp [tailItems, parseElemsTail, skipWs_ws_cons, skipWs_not_ws, jsonWs]
  | cons f fs' ih =>
    intro fuel rest hf
    obtain ⟨f', rfl⟩ : ∃ f', fuel = f' + 1 := ⟨fuel - 1, by omega⟩
    have hflat : tailItems (f :: fs') ++ ('\n' :: ']' :: rest) =
        ',' :: '\n' :: (itemChars f ++ (tailItems fs' ++ ('\n' :: ']' :: rest))) := by
      simp [tailItems]
    rw [hflat]
    have ho : parseObjItem ('\n' :: (itemChars f ++
        (tailItems fs' ++ ('\n' :: ']' :: rest)))) =
          some (f, tailItems fs' ++ ('\n' :: ']' :: rest)) := by
      simpa using parseObjItem_render ['\n'] (by decide) f
        (tailItems fs' ++ ('\n' :: ']' :: rest))
    have hrec := ih f' rest (by simpa using Nat.lt_of_succ_lt_succ hf)
    simp [parseElemsTail, skipWs_not_ws, jsonWs, ho, hrec]

/-- Read a loaded dict list back as records, failing on any dict that is not
an encoded record. -/
def decodeRecords : List (List (String × String)) → Option (List CommentRecord)
  | [] => some []
  | f :: rest =>
    match decodeRecord f with
    | none => none
    | some r =>
      match decodeRecords rest with
      | none => none
      | some rs => some (r :: rs)

/-- C8.  Writing a sequence of CommentRecord with json.dump (2-space indent,
non-ASCII preserved) and loading the file back with json.load yields exactly
the dict sequence that was written, and reading those dicts as records yields
the identical sequence of CommentRecord. -/
theorem c8_json_roundtrip (rs : List CommentRecord) :
    pyJsonLoadRecords (pyJsonDumpRecords rs) = some (rs.map encodeRecord) ∧
    decodeRecords (rs.map encodeRecord) = some rs := by
  constructor
  · cases rs with
    | nil => rfl
    | cons r rs' =>
      unfold pyJsonDumpRecords pyJsonLoadRecords
      have hflat : itemsChars (encodeRecord r :: List.map encodeRecord rs') ++
          ['\n', ']'] =
            itemChars (encodeRecord r) ++
              (tailItems (List.map encodeRecord rs') ++ ['\n', ']']) := by
        simp [itemsChars]
      have ho : parseObjItem ('\n' :: (itemChars (encodeRecord r) ++
          (tailItems (List.map encodeRecord rs') ++ ['\n', ']']))) =
            some (encodeRecord r,
              tailItems (List.map encodeRecord rs') ++ ['\n', ']']) := by
        simpa using parseObjItem_render ['\n'] (by decide) (encodeRecord r)
          (tailItems (List.map encodeRecord rs') ++ ['\n', ']'])
      have hskip2 : skipWs (itemChars (encodeRecord r) ++
          (tailItems (List.map encodeRecord rs') ++ ['\n', ']'])) =
            '{' :: ('\n' :: (membersChars (encodeRecord r) ++
              ('\n' :: ' ' :: ' ' :: '}' ::
                (tailItems (List.map encodeRecord rs') ++ ['\n', ']'])))) := by
        simp [itemChars, encodeRecord, skipWs_ws_cons, skipWs_not_ws, jsonWs]
      have hrec := parseElemsTail_render (List.map encodeRecord rs')
        ((tailItems (List.map encodeRecord rs')).length + 2 + 1) []
        (by have := tailItems_length (List.map encodeRecord rs'); omega)
      simp [hflat, ho, hskip2, hrec, skipWs_ws_cons, skipWs_not_ws, jsonWs]
      rfl
  · induction rs with
    | nil => rfl
    | cons r rs' ih =>
      have hd : decodeRecord (encodeRecord r) = some r := rfl
      simp [List.map_cons, decodeRecords, hd, ih]

end AzPrReview
